import Mathlib

/-!
Shallow embedding of the streaming-inference client, the model registry
selection, and the request router of the `use-solace/openllm` TypeScript
package (files `src/npm/src/client.ts`, `src/npm/src/registry.ts`,
`src/npm/src/elysia.ts`).

Strings are modelled as `List Char` (the `TextDecoder` byte-to-character
step is abstracted: chunks are already-decoded character sequences; with
`stream: true` the platform decoder is itself boundary-invariant).
`JSON.parse(data) as StreamToken` is modelled as an explicit parameter
`parse : List Char → Option StreamToken` (`none` = the parse exception);
it is a platform primitive, not repository code, and all theorems are
universally quantified over it.
-/

namespace OpenLLM

/-! ## Character-level utilities (JS `String.prototype` operations) -/

/-- ASCII whitespace recognised by JS `trim`. -/
def isSpaceChar (c : Char) : Bool :=
  c = ' ' || c = '\t' || c = '\n' || c = '\r' || c = '\x0b' || c = '\x0c'

/-- JS `s.trim()`. -/
def trim (s : List Char) : List Char :=
  ((s.dropWhile isSpaceChar).reverse.dropWhile isSpaceChar).reverse

/-- JS `s.startsWith(p)`: `startsWith p s` is true when `s` begins with `p`. -/
def startsWith : List Char → List Char → Bool
  | [], _ => true
  | _ :: _, [] => false
  | p :: ps, c :: cs => p = c && startsWith ps cs

/-- Concatenation of a list of chunks (the whole byte sequence). -/
def joinAll : List (List Char) → List Char
  | [] => []
  | c :: cs => c ++ joinAll cs

theorem joinAll_append (a b : List (List Char)) :
    joinAll (a ++ b) = joinAll a ++ joinAll b := by
  induction a with
  | nil => simp [joinAll]
  | cons c cs ih => simp [joinAll, ih]

/-! ## The frame decoder's line splitter

`client.ts` keeps a string `buffer`; on each chunk it executes
`buffer += chunk; const lines = buffer.split("\n"); buffer = lines.pop()`.
`splitLines s` returns exactly that pair: the complete (newline-terminated)
lines of `s`, and the trailing fragment that JS `pop()` puts back into the
buffer (`s.split("\n")` with the last element removed, and that last
element). -/

/-- Prepend a character to the first complete line, or to the trailing
fragment when there is no complete line yet. -/
def consLine (c : Char) : List (List Char) × List Char → List (List Char) × List Char
  | ([], r) => ([], c :: r)
  | (l :: ls, r) => ((c :: l) :: ls, r)

/-- `buffer.split("\n")` with the final element popped off:
`(complete lines, trailing fragment)`. -/
def splitLines : List Char → List (List Char) × List Char
  | [] => ([], [])
  | c :: cs =>
    if c = '\n' then ([] :: (splitLines cs).1, (splitLines cs).2)
    else consLine c (splitLines cs)

theorem consLine_fst_append (c : Char) (ls ms : List (List Char)) (r : List Char)
    (h : ls ≠ []) :
    consLine c (ls ++ ms, r) = ((consLine c (ls, r)).1 ++ ms, r) := by
  cases ls with
  | nil => exact absurd rfl h
  | cons l ls => simp [consLine]

/-- Key buffering lemma: splitting `a ++ b` is splitting `a`, then splitting
the carried-over fragment of `a` glued onto `b`. -/
theorem splitLines_append (a b : List Char) :
    splitLines (a ++ b) =
      ((splitLines a).1 ++ (splitLines ((splitLines a).2 ++ b)).1,
       (splitLines ((splitLines a).2 ++ b)).2) := by
  induction a with
  | nil => simp [splitLines]
  | cons c a ih =>
    rcases hsa : splitLines a with ⟨L, R⟩
    rw [hsa] at ih
    rcases hQ : splitLines (R ++ b) with ⟨M, S⟩
    rw [hQ] at ih
    by_cases hc : c = '\n'
    · subst hc
      simp only [List.cons_append, splitLines, if_pos rfl, hsa, hQ]
      simp [ih, hQ]
    · simp only [List.cons_append, splitLines, hc, if_false, ih, hsa]
      simp only [List.append_eq]
      cases L with
      | cons l ls => rw [ih]; simp [consLine, List.cons_append, hQ]
      | nil =>
        rw [ih]
        simp only [consLine, List.nil_append]
        rw [List.cons_append]
        simp only [splitLines, hc, if_false, hQ]
        simp [consLine]

/-! ## Data model (`types.ts`) -/

/-- `StreamToken` from `types.ts`. -/
structure StreamToken where
  token : List Char
  token_id : Nat
  complete : Bool
deriving DecidableEq

/-- `InferenceResponse` from `types.ts` (the aggregate result handed to
`onComplete`). -/
structure InferenceResponse where
  model_id : List Char
  text : List Char
  tokens_generated : Nat
  finish_reason : List Char
deriving DecidableEq

/-- A JS `Error` value as `client.ts` builds and observes them: `name`,
`message`, and the optional `code` / `statusCode` added by `createError`. -/
structure JsError where
  name : List Char
  message : List Char
  code : Option (List Char) := none
  statusCode : Option Nat := none
deriving DecidableEq

/-- One observable callback invocation of `inferenceStream`.  A `token`
event records, besides the `StreamToken` handed to `onToken`, the values of
the client's `accumulatedText` and `tokenCount` variables at the moment the
callback is invoked (in the source both are updated before
`options.onToken(token)` runs). -/
inductive Event where
  | token (t : StreamToken) (textAtCall : List Char) (countAtCall : Nat)
  | complete (r : InferenceResponse)
  | error (e : JsError)
deriving DecidableEq

/-- How the promise returned by `inferenceStream` settles. -/
inductive StreamTermination where
  | resolves
  | rejects (e : JsError)
deriving DecidableEq

/-! ## Error construction (`client.ts` `createError` and the literals) -/

/-- The single-quote character (written by code to avoid a bare apostrophe). -/
def qc : Char := '\x27'

def abortErrorName : List Char := "AbortError".toList

/-- Does the remainder after the literal `Model '` match `[^']+'`?  True
exactly when the first character is not a quote and a quote occurs later. -/
def containsQuote : List Char → Bool
  | [] => false
  | c :: cs => c = qc || containsQuote cs

def afterModelMatch : List Char → Bool
  | [] => false
  | c :: cs => decide (c ≠ qc) && containsQuote cs

/-- The literal `Model '` that the regex `/Model '([^']+)'/` begins with. -/
def modelMarker : List Char := "Model ".toList ++ [qc]

/-- Whether `message.match(/Model '([^']+)'/)` finds a match anywhere. -/
def hasModelQuoteRef : List Char → Bool
  | [] => false
  | c :: cs =>
    (startsWith modelMarker (c :: cs) && afterModelMatch ((c :: cs).drop 7))
      || hasModelQuoteRef cs

/-- `OpenLLMClient.createError` from `client.ts`. -/
def createError (status : Nat) (message : List Char) : JsError :=
  if status = 404 && hasModelQuoteRef message then
    ⟨"ModelNotFoundError".toList, message, some ("MODEL_NOT_FOUND".toList), some status⟩
  else if status = 412 && hasModelQuoteRef message then
    ⟨"ModelNotLoadedError".toList, message, some ("MODEL_NOT_LOADED".toList), some status⟩
  else
    ⟨"OpenLLMError".toList, message, some ("API_ERROR".toList), some status⟩

/-- The `Stream timeout after Nms` error built in the `AbortError` branch of
`inferenceStream`'s catch handler. -/
def streamTimeoutError (timeoutMs : Nat) : JsError :=
  ⟨"Error".toList,
   "Stream timeout after ".toList ++ (Nat.repr timeoutMs).toList ++ "ms".toList,
   none, none⟩

/-- The `No response body` error of `inferenceStream`. -/
def noBodyError : JsError := ⟨"Error".toList, "No response body".toList, none, none⟩

/-! ## Per-line processing of the SSE body (`inferenceStream` inner loop) -/

def eventMarker : List Char := "event: token".toList

def dataMarker : List Char := "data: ".toList

/-- The `data` payload a line contributes: mirrors the branch structure of
the source (`event: token` lines skipped; `data: ` lines sliced after the
six-character marker; empty payloads skipped; every other line ignored). -/
def payloadOf (line : List Char) : Option (List Char) :=
  let t := trim line
  if startsWith eventMarker t then none
  else if startsWith dataMarker t then
    let d := t.drop 6
    if d = [] then none else some d
  else none

/-- Processing of one successfully parsed token: `accumulatedText +=
token.token; tokenCount++; options.onToken(token); if (token.complete)
options.onComplete?.({...})`.  State is `(accumulatedText, tokenCount)`. -/
def tokStep (modelId : List Char) (tc : List Char × Nat) (tok : StreamToken) :
    (List Char × Nat) × List Event :=
  let text1 := tc.1 ++ tok.token
  let c1 := tc.2 + 1
  ((text1, c1),
   Event.token tok text1 c1 ::
     (if tok.complete then
        [Event.complete ⟨modelId, text1, c1, "stop".toList⟩]
      else []))

/-- Processing of one complete line (the body of `for (const line of
lines)`).  A payload whose `JSON.parse` fails (`parse d = none`) is logged
and skipped: no state change, no event. -/
def processLine (parse : List Char → Option StreamToken) (modelId : List Char)
    (tc : List Char × Nat) (line : List Char) : (List Char × Nat) × List Event :=
  let t := trim line
  if startsWith eventMarker t then (tc, [])
  else if startsWith dataMarker t then
    let d := t.drop 6
    if d = [] then (tc, [])
    else
      match parse d with
      | none => (tc, [])
      | some tok => tokStep modelId tc tok
  else (tc, [])

def processLines (parse : List Char → Option StreamToken) (modelId : List Char) :
    (List Char × Nat) → List (List Char) → (List Char × Nat) × List Event
  | tc, [] => (tc, [])
  | tc, l :: ls =>
    let r1 := processLine parse modelId tc l
    let r2 := processLines parse modelId r1.1 ls
    (r2.1, r1.2 ++ r2.2)

/-- The same fold expressed over already-parsed tokens. -/
def processToks (modelId : List Char) :
    (List Char × Nat) → List StreamToken → (List Char × Nat) × List Event
  | tc, [] => (tc, [])
  | tc, tok :: toks =>
    let r1 := tokStep modelId tc tok
    let r2 := processToks modelId r1.1 toks
    (r2.1, r1.2 ++ r2.2)

/-! ## Chunk loop (`while (true) { ... reader.read() ... }`) -/

/-- Decoder/accumulator state owned by one `inferenceStream` call: the SSE
line `buffer`, plus `accumulatedText` and `tokenCount`. -/
structure StState where
  buffer : List Char
  text : List Char
  count : Nat
deriving DecidableEq

/-- One iteration of the read loop on a chunk: `buffer += chunk; lines =
buffer.split("\n"); buffer = lines.pop()`, then the per-line loop. -/
def processChunk (parse : List Char → Option StreamToken) (modelId : List Char)
    (st : StState) (chunk : List Char) : StState × List Event :=
  let p := splitLines (st.buffer ++ chunk)
  let r := processLines parse modelId (st.text, st.count) p.1
  (⟨p.2, r.1.1, r.1.2⟩, r.2)

def processChunks (parse : List Char → Option StreamToken) (modelId : List Char) :
    StState → List (List Char) → StState × List Event
  | st, [] => (st, [])
  | st, ch :: chs =>
    let r1 := processChunk parse modelId st ch
    let r2 := processChunks parse modelId r1.1 chs
    (r2.1, r1.2 ++ r2.2)

/-- The tokens the decoder successfully parses out of a byte sequence: the
payloads of its complete lines, filtered through `JSON.parse`.  The trailing
fragment after the last newline is never processed (the source discards the
buffer when `done` becomes true). -/
def parsedTokens (parse : List Char → Option StreamToken) (bytes : List Char) :
    List StreamToken :=
  (splitLines bytes).1.filterMap (fun l => (payloadOf l).bind parse)

/-! ## The whole `inferenceStream` call -/

/-- What the `fetch` of the streaming request would do, absent the deadline:
either reject at time `t` with an error of the given name/message, or
resolve at time `t` with a status, an error body text (read only on non-2xx)
and a flag for whether `response.body` is present. -/
inductive ConnectOutcome where
  | rejectAt (t : Nat) (name msg : List Char)
  | resolveAt (t : Nat) (status : Nat) (errorText : List Char) (hasBody : Bool)

/-- Environment of one `inferenceStream` invocation.  `chunkTimes` are the
arrival times of the body chunks; the source has no access to them (its
timer is cleared as soon as `fetch` resolves), so the semantics never reads
them; they exist so that statements about mid-stream deadlines can be
expressed.  `readFail` is a transport failure reported by `reader.read()`
after the listed chunks, `none` meaning the source signals `done`. -/
structure StreamInput where
  timeoutMs : Nat
  connect : ConnectOutcome
  chunks : List (List Char)
  chunkTimes : List Nat
  readFail : Option JsError

/-- `response.ok`: status in the 2xx range. -/
def statusOk (status : Nat) : Bool := 200 ≤ status && status < 300

/-- The catch handler of `inferenceStream`: an `AbortError` is replaced by
the `Stream timeout` error; every caught error is passed to `onError` and
rethrown. -/
def handleCatch (timeoutMs : Nat) (evs : List Event) (e : JsError) :
    List Event × StreamTermination :=
  if e.name = abortErrorName then
    let te := streamTimeoutError timeoutMs
    (evs ++ [Event.error te], StreamTermination.rejects te)
  else
    (evs ++ [Event.error e], StreamTermination.rejects e)

/-- The message carried by an abort rejection of `fetch`. -/
def abortMsg : List Char := "The operation was aborted".toList

/-- `OpenLLMClient.inferenceStream` from `client.ts`, as a function from the
environment to the sequence of callback invocations plus the settlement of
the returned promise.  The timer set before `fetch` is cleared on the line
after `await fetch` returns, so it can only abort the connection phase:
whenever `fetch` settles after the deadline it settles as an `AbortError`
rejection; once it resolves in time, nothing that happens later is bounded. -/
def inferenceStream (parse : List Char → Option StreamToken) (modelId : List Char)
    (inp : StreamInput) : List Event × StreamTermination :=
  match inp.connect with
  | ConnectOutcome.rejectAt t name msg =>
    if inp.timeoutMs < t then
      handleCatch inp.timeoutMs [] ⟨abortErrorName, abortMsg, none, none⟩
    else
      handleCatch inp.timeoutMs [] ⟨name, msg, none, none⟩
  | ConnectOutcome.resolveAt t status errorText hasBody =>
    if inp.timeoutMs < t then
      handleCatch inp.timeoutMs [] ⟨abortErrorName, abortMsg, none, none⟩
    else if !statusOk status then
      let e := createError status errorText
      handleCatch inp.timeoutMs [Event.error e] e
    else if !hasBody then
      handleCatch inp.timeoutMs [Event.error noBodyError] noBodyError
    else
      let r := processChunks parse modelId ⟨[], [], 0⟩ inp.chunks
      match inp.readFail with
      | none => (r.2, StreamTermination.resolves)
      | some e => handleCatch inp.timeoutMs r.2 e

/-! ## Event measurements (observations a caller can make on a trace) -/

def isTokenEv : Event → Bool
  | Event.token _ _ _ => true
  | _ => false

/-- The `StreamToken`s handed to `onToken`, in order. -/
def tokensOf (evs : List Event) : List StreamToken :=
  evs.filterMap fun ev =>
    match ev with
    | Event.token t _ _ => some t
    | _ => none

/-- The aggregate results handed to `onComplete`, in order. -/
def completesOf (evs : List Event) : List InferenceResponse :=
  evs.filterMap fun ev =>
    match ev with
    | Event.complete r => some r
    | _ => none

/-- The errors handed to `onError`, in order. -/
def errorsOf (evs : List Event) : List JsError :=
  evs.filterMap fun ev =>
    match ev with
    | Event.error e => some e
    | _ => none

/-- The expected sequence of `token` events for a parsed token list,
starting from accumulator state `(t0, c0)`: the snapshot delivered with the
k-th token already contains that token's fragment and counts it. -/
def tokenEventList (t0 : List Char) (c0 : Nat) : List StreamToken → List Event
  | [] => []
  | tok :: toks =>
    Event.token tok (t0 ++ tok.token) (c0 + 1) ::
      tokenEventList (t0 ++ tok.token) (c0 + 1) toks

/-- The expected sequence of `onComplete` results: one per completion-flagged
token, built from the accumulator state just after that token. -/
def completesList (modelId t0 : List Char) (c0 : Nat) :
    List StreamToken → List InferenceResponse
  | [] => []
  | tok :: toks =>
    (if tok.complete then
       [⟨modelId, t0 ++ tok.token, c0 + 1, "stop".toList⟩]
     else []) ++ completesList modelId (t0 ++ tok.token) (c0 + 1) toks

/-! ## Model registry (`registry.ts`) and request router (`elysia.ts`) -/

inductive InferenceBackend where
  | ollama | llama | huggingface | openai
deriving DecidableEq

inductive ModelCapability where
  | chat | vision | embedding | completionCap
deriving DecidableEq

inductive LatencyProfile where
  | extreme | fast | slow
deriving DecidableEq

/-- `ModelRegistryEntry` from `types.ts`. -/
structure ModelRegistryEntry where
  id : List Char
  name : List Char
  inference : InferenceBackend
  context : Nat
  quant : Option (List Char)
  capabilities : List ModelCapability
  latency : Option LatencyProfile
  size_bytes : Nat
  loaded : Bool
  loaded_at : Option (List Char)
deriving DecidableEq

/-- `FindModelOptions` from `types.ts`. -/
structure FindModelOptions where
  capability : Option ModelCapability := none
  latency : Option LatencyProfile := none
  inference : Option InferenceBackend := none
  minContext : Option Nat := none
  loaded : Option Bool := none
deriving DecidableEq

/-- The guard `if (options.minContext && model.context < options.minContext)
return false` of `ModelRegistryImpl.find`: the bound `0` is falsy in JS, so
the test passes exactly when not (the bound is non-zero and the context is
below it). -/
def minContextCheck (c ctx : Nat) : Bool :=
  !(decide (c ≠ 0) && decide (ctx < c))

/-- The filter predicate of `ModelRegistryImpl.find` (the sequence of early
`return false` guards, conjunctively). -/
def entryMatches (o : FindModelOptions) (m : ModelRegistryEntry) : Bool :=
  (match o.capability with
   | none => true
   | some c => m.capabilities.contains c) &&
  (match o.latency with
   | none => true
   | some l => m.latency = some l) &&
  (match o.inference with
   | none => true
   | some b => m.inference = b) &&
  (match o.minContext with
   | none => true
   | some c => minContextCheck c m.context) &&
  (match o.loaded with
   | none => true
   | some b => m.loaded = b)

/-- `ModelRegistryImpl.find`: filter the catalog in enumeration order.  The
catalog (an insertion-ordered `Map`) is modelled as the list `list()`
returns. -/
def find (entries : List ModelRegistryEntry) (o : FindModelOptions) :
    List ModelRegistryEntry :=
  entries.filter (entryMatches o)

/-- `ModelRegistryImpl.findOne`: `this.find(options)[0]` (JS indexing out of
range gives `undefined`). -/
def findOne (entries : List ModelRegistryEntry) (o : FindModelOptions) :
    Option ModelRegistryEntry :=
  (find entries o).head?

/-- `ModelRegistryImpl.get`: `Map.get` (keys are unique, so the first entry
with the id). -/
def regGet (entries : List ModelRegistryEntry) (id : List Char) :
    Option ModelRegistryEntry :=
  entries.find? (fun e => e.id = id)

/-- The `options` object of a `/router/chat` request body (`elysia.ts`).
JS numbers that are only passed through opaquely (`temperature`) are
modelled as integers. -/
structure RouterOptions where
  model : Option (List Char) := none
  latency : Option LatencyProfile := none
  inference : Option InferenceBackend := none
  minContext : Option Nat := none
  max_tokens : Option Nat := none
  temperature : Option Int := none

/-- `InferenceRequest` from `types.ts` as the router builds it. -/
structure InferenceRequestR where
  model_id : List Char
  prompt : List Char
  max_tokens : Option Nat
  temperature : Option Int

/-- Outcome of the `/router/chat` handler: one of the two throws that happen
before any engine call, or the `client.inference` call it issues. -/
inductive RouterOutcome where
  | notFoundErr (id : List Char)
  | noMatchErr
  | call (req : InferenceRequestR)

/-- `if (options.model)`: a JS string is truthy when non-empty. -/
def truthyStr : Option (List Char) → Option (List Char)
  | some s => if s = [] then none else some s
  | none => none

/-- The criteria object the router passes to `registry.findOne`: the
hard-coded `capability: "chat"` plus the caller's fields (`loaded` absent). -/
def chatCriteria (o : RouterOptions) : FindModelOptions :=
  ⟨some ModelCapability.chat, o.latency, o.inference, o.minContext, none⟩

/-- The `/router/chat` handler of `elysia.ts`. -/
def routerChat (reg : List ModelRegistryEntry) (prompt : List Char)
    (o : RouterOptions) : RouterOutcome :=
  match truthyStr o.model with
  | some mid =>
    match regGet reg mid with
    | none => RouterOutcome.notFoundErr mid
    | some m => RouterOutcome.call ⟨m.id, prompt, o.max_tokens, o.temperature⟩
  | none =>
    match findOne reg (chatCriteria o) with
    | none => RouterOutcome.noMatchErr
    | some m => RouterOutcome.call ⟨m.id, prompt, o.max_tokens, o.temperature⟩

/-! ## Lemmas: line splitter -/

/-- A string without a newline splits into no complete line and itself as
the carried fragment. -/
theorem splitLines_no_nl (s : List Char) (h : '\n' ∉ s) :
    splitLines s = ([], s) := by
  induction s with
  | nil => rfl
  | cons c cs ih =>
    have hc : c ≠ '\n' := fun hcc => h (hcc ▸ List.mem_cons_self c cs)
    have hcs : '\n' ∉ cs := fun hm => h (List.mem_cons_of_mem c hm)
    simp [splitLines, hc, ih hcs, consLine]

/-- The carried fragment never contains a newline. -/
theorem splitLines_snd_no_nl (s : List Char) : '\n' ∉ (splitLines s).2 := by
  induction s with
  | nil => simp [splitLines]
  | cons c cs ih =>
    rcases hs : splitLines cs with ⟨L, R⟩
    rw [hs] at ih
    by_cases hc : c = '\n'
    · subst hc
      simp only [splitLines, if_pos rfl, hs]
      exact ih
    · simp only [splitLines, hc, if_false, hs]
      cases L with
      | nil =>
        simp only [consLine]
        intro hm
        rcases List.mem_cons.mp hm with h | h
        · exact hc h.symm
        · exact ih h
      | cons l ls => simpa [consLine] using ih

/-! ## Lemmas: per-line and per-token processing -/

/-- `processLine` is the `payloadOf`-then-`parse` pipeline. -/
theorem processLine_eq (parse : List Char → Option StreamToken)
    (modelId : List Char) (tc : List Char × Nat) (l : List Char) :
    processLine parse modelId tc l =
      match (payloadOf l).bind parse with
      | none => (tc, [])
      | some tok => tokStep modelId tc tok := by
  unfold processLine payloadOf
  by_cases h1 : startsWith eventMarker (trim l) = true
  · simp [h1]
  · simp only [h1]
    by_cases h2 : startsWith dataMarker (trim l) = true
    · simp only [h2]
      by_cases h3 : (trim l).drop 6 = []
      · simp [h3]
      · simp only [h3, if_true, if_false]
        cases hp : parse ((trim l).drop 6) <;> simp [hp]
    · simp [h2]

theorem processLines_append (parse : List Char → Option StreamToken)
    (modelId : List Char) (tc : List Char × Nat) (ls1 ls2 : List (List Char)) :
    processLines parse modelId tc (ls1 ++ ls2) =
      ((processLines parse modelId (processLines parse modelId tc ls1).1 ls2).1,
       (processLines parse modelId tc ls1).2 ++
         (processLines parse modelId (processLines parse modelId tc ls1).1 ls2).2) := by
  induction ls1 generalizing tc with
  | nil => simp [processLines]
  | cons l ls ih => simp [processLines, ih, List.append_assoc]

/-- Per-line processing is per-token processing of the parsed payloads. -/
theorem processLines_toks (parse : List Char → Option StreamToken)
    (modelId : List Char) (tc : List Char × Nat) (ls : List (List Char)) :
    processLines parse modelId tc ls =
      processToks modelId tc (ls.filterMap (fun l => (payloadOf l).bind parse)) := by
  induction ls generalizing tc with
  | nil => rfl
  | cons l ls ih =>
    simp only [processLines, List.filterMap_cons, processLine_eq]
    cases h : (payloadOf l).bind parse with
    | none => simp [h, ih]
    | some tok => simp [h, processToks, ih]

/-! ## Lemmas: the chunk loop -/

/-- Correctness of the incremental buffering: running the read loop from a
newline-free buffer is the same as splitting the buffer glued to all the
chunks at once and processing the complete lines. -/
theorem processChunks_eq (parse : List Char → Option StreamToken)
    (modelId : List Char) (buf text : List Char) (count : Nat)
    (chunks : List (List Char)) (hbuf : '\n' ∉ buf) :
    processChunks parse modelId ⟨buf, text, count⟩ chunks =
      (⟨(splitLines (buf ++ joinAll chunks)).2,
        (processLines parse modelId (text, count)
          (splitLines (buf ++ joinAll chunks)).1).1.1,
        (processLines parse modelId (text, count)
          (splitLines (buf ++ joinAll chunks)).1).1.2⟩,
       (processLines parse modelId (text, count)
         (splitLines (buf ++ joinAll chunks)).1).2) := by
  induction chunks generalizing buf text count with
  | nil =>
    simp [processChunks, joinAll, splitLines_no_nl buf hbuf, processLines]
  | cons ch chs ih =>
    have hassoc : buf ++ joinAll (ch :: chs) = (buf ++ ch) ++ joinAll chs := by
      simp [joinAll, List.append_assoc]
    rw [hassoc, splitLines_append (buf ++ ch) (joinAll chs)]
    simp only [processChunks, processChunk]
    rw [ih (splitLines (buf ++ ch)).2 _ _ (splitLines_snd_no_nl _)]
    simp [processLines_append]

/-- The trace of the happy streaming path, in terms of the parsed tokens of
the whole byte sequence. -/
theorem processChunks_trace (parse : List Char → Option StreamToken)
    (modelId : List Char) (chunks : List (List Char)) :
    (processChunks parse modelId ⟨[], [], 0⟩ chunks).2 =
      (processToks modelId ([], 0) (parsedTokens parse (joinAll chunks))).2 := by
  rw [processChunks_eq parse modelId [] [] 0 chunks (by simp)]
  simp [processLines_toks, parsedTokens]

/-! ## Lemmas: observations of the token fold -/

/-- Fragment concatenation of a token list. -/
def fragsJoin (toks : List StreamToken) : List Char :=
  joinAll (toks.map StreamToken.token)

theorem errorsOf_append (a b : List Event) :
    errorsOf (a ++ b) = errorsOf a ++ errorsOf b := by
  simp [errorsOf]

theorem tokensOf_append (a b : List Event) :
    tokensOf (a ++ b) = tokensOf a ++ tokensOf b := by
  simp [tokensOf]

theorem completesOf_append (a b : List Event) :
    completesOf (a ++ b) = completesOf a ++ completesOf b := by
  simp [completesOf]

/-- The token fold never invokes the error callback. -/
theorem processToks_errors (modelId : List Char) (tc : List Char × Nat)
    (toks : List StreamToken) :
    errorsOf (processToks modelId tc toks).2 = [] := by
  induction toks generalizing tc with
  | nil => simp [processToks, errorsOf]
  | cons tok toks ih =>
    simp only [processToks, errorsOf_append, ih, List.append_nil]
    cases h : tok.complete <;> simp [tokStep, h, errorsOf]

/-- Every parsed token is handed to `onToken`, in order. -/
theorem processToks_tokens (modelId : List Char) (tc : List Char × Nat)
    (toks : List StreamToken) :
    tokensOf (processToks modelId tc toks).2 = toks := by
  induction toks generalizing tc with
  | nil => simp [processToks, tokensOf]
  | cons tok toks ih =>
    simp only [processToks, tokensOf_append, ih]
    cases h : tok.complete <;> simp [tokStep, h, tokensOf]

theorem completesOf_cons_token (t : StreamToken) (a : List Char) (b : Nat)
    (evs : List Event) :
    completesOf (Event.token t a b :: evs) = completesOf evs := by
  simp [completesOf]

theorem completesOf_cons_complete (r : InferenceResponse) (evs : List Event) :
    completesOf (Event.complete r :: evs) = r :: completesOf evs := by
  simp [completesOf]

theorem tokStep_fst (modelId : List Char) (tc : List Char × Nat)
    (tok : StreamToken) :
    (tokStep modelId tc tok).1 = (tc.1 ++ tok.token, tc.2 + 1) := rfl

theorem completesOf_tokStep (modelId : List Char) (tc : List Char × Nat)
    (tok : StreamToken) :
    completesOf (tokStep modelId tc tok).2 =
      (if tok.complete then
         [⟨modelId, tc.1 ++ tok.token, tc.2 + 1, "stop".toList⟩]
       else []) := by
  cases h : tok.complete <;> simp [tokStep, h, completesOf]

/-- The `onComplete` invocations of the token fold. -/
theorem processToks_completes (modelId : List Char) (t0 : List Char) (c0 : Nat)
    (toks : List StreamToken) :
    completesOf (processToks modelId (t0, c0) toks).2 =
      completesList modelId t0 c0 toks := by
  induction toks generalizing t0 c0 with
  | nil => simp [processToks, completesOf, completesList]
  | cons tok toks ih =>
    simp only [processToks, completesOf_append, completesList,
      completesOf_tokStep, tokStep_fst, ih]

/-- The `onToken` events of the token fold carry the updated accumulator:
the k-th snapshot already includes the k-th fragment and counts it. -/
theorem processToks_tokenEvents (modelId : List Char) (t0 : List Char) (c0 : Nat)
    (toks : List StreamToken) :
    (processToks modelId (t0, c0) toks).2.filter isTokenEv =
      tokenEventList t0 c0 toks := by
  induction toks generalizing t0 c0 with
  | nil => simp [processToks, tokenEventList]
  | cons tok toks ih =>
    simp only [processToks, List.filter_append, tokenEventList]
    cases h : tok.complete <;> simp [tokStep, h, isTokenEv, ih]

/-- Final accumulator state of the token fold. -/
theorem processToks_state (modelId : List Char) (t0 : List Char) (c0 : Nat)
    (toks : List StreamToken) :
    (processToks modelId (t0, c0) toks).1 =
      (t0 ++ fragsJoin toks, c0 + toks.length) := by
  induction toks generalizing t0 c0 with
  | nil => simp [processToks, fragsJoin, joinAll]
  | cons tok toks ih =>
    simp only [processToks, tokStep]
    rw [ih]
    simp [fragsJoin, joinAll, List.append_assoc, Nat.add_comm, Nat.add_assoc,
      Nat.add_left_comm]

theorem completesList_append (modelId t0 : List Char) (c0 : Nat)
    (xs ys : List StreamToken) :
    completesList modelId t0 c0 (xs ++ ys) =
      completesList modelId t0 c0 xs ++
        completesList modelId (t0 ++ fragsJoin xs) (c0 + xs.length) ys := by
  induction xs generalizing t0 c0 with
  | nil => simp [completesList, fragsJoin, joinAll]
  | cons x xs ih =>
    simp only [List.cons_append, completesList, List.append_eq]
    rw [ih]
    simp [fragsJoin, joinAll, List.append_assoc, Nat.add_assoc, Nat.add_comm,
      Nat.add_left_comm]

/-- No completion-flagged token, no completion callback. -/
theorem completesList_none (modelId t0 : List Char) (c0 : Nat)
    (toks : List StreamToken) (h : ∀ tk ∈ toks, tk.complete = false) :
    completesList modelId t0 c0 toks = [] := by
  induction toks generalizing t0 c0 with
  | nil => rfl
  | cons tok toks ih =>
    have h1 := h tok (List.mem_cons_self tok toks)
    have h2 : ∀ tk ∈ toks, tk.complete = false :=
      fun tk hm => h tk (List.mem_cons_of_mem tok hm)
    simp [completesList, h1, ih (t0 ++ tok.token) (c0 + 1) h2]

/-! ## Concrete fixtures

`parseFixture` is a stand-in for `JSON.parse … as StreamToken` that agrees
with the real `JSON.parse` on three concrete JSON payloads and throws
(returns `none`) on everything else. -/

def tokA : StreamToken := ⟨"Hi".toList, 0, false⟩

def tokB : StreamToken := ⟨"!".toList, 1, true⟩

def tokC : StreamToken := ⟨"Bye".toList, 2, true⟩

def payloadA : List Char :=
  "\x7b\"token\":\"Hi\",\"token_id\":0,\"complete\":false\x7d".toList

def payloadB : List Char :=
  "\x7b\"token\":\"!\",\"token_id\":1,\"complete\":true\x7d".toList

def payloadC : List Char :=
  "\x7b\"token\":\"Bye\",\"token_id\":2,\"complete\":true\x7d".toList

def parseFixture (s : List Char) : Option StreamToken :=
  if s = payloadA then some tokA
  else if s = payloadB then some tokB
  else if s = payloadC then some tokC
  else none

/-- A full SSE data record for a payload. -/
def dataLine (p : List Char) : List Char := "data: ".toList ++ p ++ ['\n']

def mname : List Char := "m".toList

def entryA : ModelRegistryEntry :=
  ⟨"a".toList, "a".toList, InferenceBackend.ollama, 4096, none,
   [ModelCapability.chat], some LatencyProfile.fast, 4000000000, false, none⟩

def entryB : ModelRegistryEntry :=
  ⟨"b".toList, "b".toList, InferenceBackend.ollama, 8192, none,
   [ModelCapability.chat], some LatencyProfile.fast, 4000000000, false, none⟩

/-! ## Claim C6 -/

/-- Claim C6: for every catalog and minimum-context bound `c` in the
criteria, `findOne` never returns an entry whose context size is below `c`,
and the minimum-context criterion accepts an entry exactly when its context
size is at least the bound. -/
theorem c6_min_context :
    (∀ (entries : List ModelRegistryEntry) (o : FindModelOptions) (c : Nat)
       (m : ModelRegistryEntry), o.minContext = some c →
       findOne entries o = some m → c ≤ m.context) ∧
    (∀ c ctx : Nat, minContextCheck c ctx = true ↔ c ≤ ctx) := by
  have hiff : ∀ c ctx : Nat, minContextCheck c ctx = true ↔ c ≤ ctx := by
    intro c ctx
    by_cases h : c = 0
    · subst h; simp [minContextCheck]
    · simp [minContextCheck, h, Nat.not_lt]
  refine ⟨?_, hiff⟩
  intro entries o c m hmin hfind
  have hm : m ∈ find entries o :=
    List.mem_of_mem_head? (by simp only [findOne] at hfind; simp [hfind])
  have hmatch := (List.mem_filter.mp hm).2
  simp only [entryMatches, Bool.and_eq_true] at hmatch
  rcases hmatch with ⟨⟨⟨⟨hcap, hlat⟩, hinf⟩, hminc⟩, hload⟩
  rw [hmin] at hminc
  exact (hiff c m.context).mp (by simpa using hminc)

/-- Witness for C6 at a concrete catalog and bound. -/
theorem c6_min_context_witness : 8192 ≤ entryB.context :=
  c6_min_context.1 [entryA, entryB] ⟨none, none, none, some 8192, none⟩ 8192
    entryB rfl (by decide)

/-! ## Claim C8 -/

/-- Claim C8 counterexample: the request body carries the explicit model
identifier `""`, which is absent from the catalog, yet the router does not
fail: `if (options.model)` treats the empty string as falsy, falls through
to criteria selection and issues an inference call for `"a"`.  The claim as
stated requires a failure before any engine call here. -/
theorem c8_counterexample :
    routerChat [entryA] ("p".toList) ⟨some [], none, none, none, none, none⟩ =
      RouterOutcome.call ⟨"a".toList, "p".toList, none, none⟩ := by
  rfl

/-- Claim C8 (amended): a *non-empty* explicit model identifier takes
precedence over criteria; if it is absent from the catalog the router
throws before issuing any inference call, and when no explicit identifier
is (truthily) given and no entry satisfies the criteria the router also
throws before any engine call.  The empty-string identifier is treated as
absent. -/
theorem c8_router_fail_fast (reg : List ModelRegistryEntry) (prompt : List Char)
    (o : RouterOptions) :
    (∀ mid, truthyStr o.model = some mid → regGet reg mid = none →
       routerChat reg prompt o = RouterOutcome.notFoundErr mid) ∧
    (truthyStr o.model = none → findOne reg (chatCriteria o) = none →
       routerChat reg prompt o = RouterOutcome.noMatchErr) ∧
    (∀ mid m, truthyStr o.model = some mid → regGet reg mid = some m →
       routerChat reg prompt o =
         RouterOutcome.call ⟨m.id, prompt, o.max_tokens, o.temperature⟩) := by
  refine ⟨?_, ?_, ?_⟩
  · intro mid h1 h2
    simp [routerChat, h1, h2]
  · intro h1 h2
    simp [routerChat, h1, h2]
  · intro mid m h1 h2
    simp [routerChat, h1, h2]

/-- Witness for C8 (amended) at a concrete catalog and request. -/
theorem c8_router_fail_fast_witness :
    routerChat [entryA] ("p".toList)
        ⟨some ("zz".toList), none, none, none, none, none⟩ =
      RouterOutcome.notFoundErr ("zz".toList) :=
  (c8_router_fail_fast [entryA] ("p".toList)
      ⟨some ("zz".toList), none, none, none, none, none⟩).1
    ("zz".toList) (by decide) (by decide)

/-! ## Claim C10 -/

/-- Claim C10: every criteria-based (non-truthy explicit identifier)
routing decision goes through `findOne` with the hard-coded `capability:
"chat"` criterion, so the selected entry is a catalog member that satisfies
the full criteria and in particular declares the `chat` capability. -/
theorem c10_implicit_chat_only (reg : List ModelRegistryEntry)
    (prompt : List Char) (o : RouterOptions) (ir : InferenceRequestR)
    (hm : truthyStr o.model = none)
    (hc : routerChat reg prompt o = RouterOutcome.call ir) :
    ∃ e, e ∈ reg ∧ e.id = ir.model_id ∧
      entryMatches (chatCriteria o) e = true ∧
      e.capabilities.contains ModelCapability.chat = true := by
  rcases hf : findOne reg (chatCriteria o) with _ | m
  · simp [routerChat, hm, hf] at hc
  · have hmem : m ∈ find reg (chatCriteria o) :=
      List.mem_of_mem_head? (by simp only [findOne] at hf; simp [hf])
    have hmatch := (List.mem_filter.mp hmem).2
    have hreg := (List.mem_filter.mp hmem).1
    have hchat : m.capabilities.contains ModelCapability.chat = true := by
      have h2 := hmatch
      simp only [entryMatches, Bool.and_eq_true] at h2
      rcases h2 with ⟨⟨⟨⟨hcap, _⟩, _⟩, _⟩, _⟩
      simpa [chatCriteria] using hcap
    have hir : ir = ⟨m.id, prompt, o.max_tokens, o.temperature⟩ := by
      simp [routerChat, hm, hf] at hc
      exact hc.symm
    exact ⟨m, hreg, by rw [hir], hmatch, hchat⟩

/-- Witness for C10 at a concrete catalog and request. -/
theorem c10_implicit_chat_only_witness :
    ∃ e, e ∈ [entryA] ∧
      e.id = (InferenceRequestR.mk ("a".toList) ("p".toList) none none).model_id ∧
      entryMatches (chatCriteria ⟨none, none, none, none, none, none⟩) e = true ∧
      e.capabilities.contains ModelCapability.chat = true :=
  c10_implicit_chat_only [entryA] ("p".toList) ⟨none, none, none, none, none, none⟩
    ⟨"a".toList, "p".toList, none, none⟩ rfl (by rfl)

/-! ## Helper lemmas for the streaming claims -/

/-- Happy-path reduction: connection within the deadline, 2xx status, body
present, source closes normally — the trace is the token fold over the
parsed tokens of the concatenated bytes, and the promise resolves. -/
theorem inferenceStream_done (parse : List Char → Option StreamToken)
    (modelId : List Char) (timeoutMs t status : Nat) (et : List Char)
    (chunks : List (List Char)) (times : List Nat)
    (hconn : ¬ timeoutMs < t) (hok : statusOk status = true) :
    inferenceStream parse modelId
        ⟨timeoutMs, ConnectOutcome.resolveAt t status et true, chunks, times, none⟩ =
      ((processToks modelId ([], 0) (parsedTokens parse (joinAll chunks))).2,
       StreamTermination.resolves) := by
  simp [inferenceStream, hconn, hok, processChunks_trace]

theorem fragsJoin_append (xs ys : List StreamToken) :
    fragsJoin (xs ++ ys) = fragsJoin xs ++ fragsJoin ys := by
  simp [fragsJoin, joinAll_append]

theorem completesList_length (modelId t0 : List Char) (c0 : Nat)
    (toks : List StreamToken) :
    (completesList modelId t0 c0 toks).length =
      (toks.filter fun tk => tk.complete).length := by
  induction toks generalizing t0 c0 with
  | nil => rfl
  | cons tok toks ih =>
    cases h : tok.complete <;>
      simp [completesList, h, List.filter_cons, ih (t0 ++ tok.token) (c0 + 1)]

theorem errorsOf_concat_error (evs : List Event) (e : JsError) :
    errorsOf (evs ++ [Event.error e]) = errorsOf evs ++ [e] := by
  simp [errorsOf]

/-! ## Claim C1 -/

def inpC1 : StreamInput :=
  ⟨30000, ConnectOutcome.resolveAt 5 200 [] true, [dataLine payloadA], [5], none⟩

/-- Claim C1 counterexample: the byte source delivers one record whose token
is not completion-flagged and then closes.  The per-token callback fired
once, but neither the completion callback nor the error callback ever fires
and the promise resolves: the claim requires the error callback to fire with
an unexpected-termination error, and in any case requires exactly one
terminal callback. -/
theorem c1_counterexample :
    tokensOf (inferenceStream parseFixture mname inpC1).1 = [tokA] ∧
    completesOf (inferenceStream parseFixture mname inpC1).1 = [] ∧
    errorsOf (inferenceStream parseFixture mname inpC1).1 = [] ∧
    (inferenceStream parseFixture mname inpC1).2 = StreamTermination.resolves := by
  decide

/-- Claim C1 (amended): when the connection succeeds within the deadline,
the body is present and the byte source closes without any
completion-flagged token having been parsed and without a transport
failure, the invocation ends with *no* terminal callback at all: neither
`onComplete` nor `onError` fires and the promise resolves (tokens already
delivered stand). -/
theorem c1_silent_close (parse : List Char → Option StreamToken)
    (modelId : List Char) (timeoutMs t status : Nat) (et : List Char)
    (chunks : List (List Char)) (times : List Nat)
    (hconn : ¬ timeoutMs < t) (hok : statusOk status = true)
    (hnoc : ∀ tk ∈ parsedTokens parse (joinAll chunks), tk.complete = false) :
    completesOf (inferenceStream parse modelId
        ⟨timeoutMs, ConnectOutcome.resolveAt t status et true, chunks, times,
         none⟩).1 = [] ∧
    errorsOf (inferenceStream parse modelId
        ⟨timeoutMs, ConnectOutcome.resolveAt t status et true, chunks, times,
         none⟩).1 = [] ∧
    (inferenceStream parse modelId
        ⟨timeoutMs, ConnectOutcome.resolveAt t status et true, chunks, times,
         none⟩).2 = StreamTermination.resolves := by
  rw [inferenceStream_done parse modelId timeoutMs t status et chunks times
    hconn hok]
  refine ⟨?_, ?_, rfl⟩
  · rw [processToks_completes]
    exact completesList_none modelId [] 0 _ hnoc
  · exact processToks_errors modelId ([], 0) _

/-- Witness for C1 (amended) at a concrete stream. -/
theorem c1_silent_close_witness :
    completesOf (inferenceStream parseFixture mname inpC1).1 = [] ∧
    errorsOf (inferenceStream parseFixture mname inpC1).1 = [] ∧
    (inferenceStream parseFixture mname inpC1).2 = StreamTermination.resolves :=
  c1_silent_close parseFixture mname 30000 5 200 [] [dataLine payloadA] [5]
    (by decide) (by decide) (by decide)

/-! ## Claim C2 -/

def inpC2 : StreamInput :=
  ⟨10, ConnectOutcome.resolveAt 5 200 [] true, [dataLine payloadA], [15], none⟩

/-- Claim C2 counterexample: the deadline is 10ms, the headers arrive at
5ms (so the controller is in the Streaming state when the deadline elapses)
and the only body chunk arrives at 15ms, after the deadline.  The claim
requires the error callback to fire with a deadline-exceeded error and the
stream to end TimedOut; instead the chunk is processed normally, the token
is delivered, no error callback ever fires and the promise resolves —
`clearTimeout` ran as soon as the headers arrived. -/
theorem c2_counterexample :
    inferenceStream parseFixture mname inpC2 =
      ([Event.token tokA ("Hi".toList) 1], StreamTermination.resolves) := by
  decide

/-- Claim C2 (amended): the deadline only bounds the connection phase.  If
`fetch` settles after the deadline (rejecting or resolving), the trace is
exactly one error callback with the deadline-exceeded `Stream timeout`
error and the promise rejects with it — no token and no completion callback.
Once the connection resolves within the deadline the timer is cleared: the
trace does not depend on the chunk arrival times at all, and on a stream
whose transport does not fail no error callback fires, so in particular no
deadline-exceeded error can be delivered mid-stream. -/
theorem c2_deadline_bounds_connect_only (parse : List Char → Option StreamToken)
    (modelId : List Char) (timeoutMs : Nat) :
    (∀ t name msg chunks times rf, timeoutMs < t →
       inferenceStream parse modelId
           ⟨timeoutMs, ConnectOutcome.rejectAt t name msg, chunks, times, rf⟩ =
         ([Event.error (streamTimeoutError timeoutMs)],
          StreamTermination.rejects (streamTimeoutError timeoutMs))) ∧
    (∀ t status et hb chunks times rf, timeoutMs < t →
       inferenceStream parse modelId
           ⟨timeoutMs, ConnectOutcome.resolveAt t status et hb, chunks, times, rf⟩ =
         ([Event.error (streamTimeoutError timeoutMs)],
          StreamTermination.rejects (streamTimeoutError timeoutMs))) ∧
    (∀ connect chunks times1 times2 rf,
       inferenceStream parse modelId ⟨timeoutMs, connect, chunks, times1, rf⟩ =
         inferenceStream parse modelId ⟨timeoutMs, connect, chunks, times2, rf⟩) ∧
    (∀ t status et chunks times, ¬ timeoutMs < t → statusOk status = true →
       errorsOf (inferenceStream parse modelId
           ⟨timeoutMs, ConnectOutcome.resolveAt t status et true, chunks, times,
            none⟩).1 = []) := by
  refine ⟨?_, ?_, ?_, ?_⟩
  · intro t name msg chunks times rf h
    simp [inferenceStream, h, handleCatch]
  · intro t status et hb chunks times rf h
    simp [inferenceStream, h, handleCatch]
  · intro connect chunks times1 times2 rf
    cases connect <;> rfl
  · intro t status et chunks times hconn hok
    rw [inferenceStream_done parse modelId timeoutMs t status et chunks times
      hconn hok]
    exact processToks_errors modelId ([], 0) _

/-- Witness for C2 (amended): a connection that resolves only after the
deadline yields exactly the deadline-exceeded error callback. -/
theorem c2_deadline_witness :
    inferenceStream parseFixture mname
        ⟨10, ConnectOutcome.resolveAt 20 200 [] true, [dataLine payloadA], [25],
         none⟩ =
      ([Event.error (streamTimeoutError 10)],
       StreamTermination.rejects (streamTimeoutError 10)) :=
  (c2_deadline_bounds_connect_only parseFixture mname 10).2.1 20 200 [] true
    [dataLine payloadA] [25] none (by decide)

/-! ## Claim C3 -/

def inpC3 : StreamInput :=
  ⟨30000, ConnectOutcome.resolveAt 5 200 [] true,
   [dataLine payloadB ++ dataLine payloadC], [5], none⟩

/-- Claim C3 counterexample: the body carries two completion-flagged
records.  Two completion-flagged tokens are observed, a further token is
decoded and delivered after the first completion-flagged token, and the
completion callback fires twice — the loop has no `break` after a
completion-flagged token. -/
theorem c3_counterexample :
    inferenceStream parseFixture mname inpC3 =
      ([Event.token tokB ("!".toList) 1,
        Event.complete ⟨mname, "!".toList, 1, "stop".toList⟩,
        Event.token tokC ("!Bye".toList) 2,
        Event.complete ⟨mname, "!Bye".toList, 2, "stop".toList⟩],
       StreamTermination.resolves) := by
  decide

/-- Claim C3 (amended): decoding does not stop at a completion-flagged
token.  Every successfully parsed record of the whole byte sequence is
delivered to the per-token callback, in order, and the completion callback
fires once per completion-flagged token (possibly several times). -/
theorem c3_decoding_continues (parse : List Char → Option StreamToken)
    (modelId : List Char) (timeoutMs t status : Nat) (et : List Char)
    (chunks : List (List Char)) (times : List Nat)
    (hconn : ¬ timeoutMs < t) (hok : statusOk status = true) :
    tokensOf (inferenceStream parse modelId
        ⟨timeoutMs, ConnectOutcome.resolveAt t status et true, chunks, times,
         none⟩).1 = parsedTokens parse (joinAll chunks) ∧
    (completesOf (inferenceStream parse modelId
        ⟨timeoutMs, ConnectOutcome.resolveAt t status et true, chunks, times,
         none⟩).1).length =
      ((parsedTokens parse (joinAll chunks)).filter fun tk =>
        tk.complete).length := by
  rw [inferenceStream_done parse modelId timeoutMs t status et chunks times
    hconn hok]
  refine ⟨processToks_tokens modelId ([], 0) _, ?_⟩
  rw [processToks_completes]
  exact completesList_length modelId [] 0 _

/-- Witness for C3 (amended) at the two-completion stream. -/
theorem c3_decoding_continues_witness :
    tokensOf (inferenceStream parseFixture mname inpC3).1 =
      parsedTokens parseFixture
        (joinAll [dataLine payloadB ++ dataLine payloadC]) ∧
    (completesOf (inferenceStream parseFixture mname inpC3).1).length =
      ((parsedTokens parseFixture
          (joinAll [dataLine payloadB ++ dataLine payloadC])).filter fun tk =>
        tk.complete).length :=
  c3_decoding_continues parseFixture mname 30000 5 200 []
    [dataLine payloadB ++ dataLine payloadC] [5] (by decide) (by decide)

/-! ## Claim C4 -/

/-- Claim C4: split-invariance of the frame decoder.  Two chunkings of the
same byte sequence (whatever the boundaries, and whatever the arrival
times) produce identical traces — identical parsed tokens, callback
sequences and promise settlement. -/
theorem c4_split_invariance (parse : List Char → Option StreamToken)
    (modelId : List Char) (timeoutMs : Nat) (connect : ConnectOutcome)
    (times1 times2 : List Nat) (rf : Option JsError)
    (chunks1 chunks2 : List (List Char))
    (h : joinAll chunks1 = joinAll chunks2) :
    inferenceStream parse modelId ⟨timeoutMs, connect, chunks1, times1, rf⟩ =
      inferenceStream parse modelId ⟨timeoutMs, connect, chunks2, times2, rf⟩ := by
  have hpc : processChunks parse modelId ⟨[], [], 0⟩ chunks1 =
      processChunks parse modelId ⟨[], [], 0⟩ chunks2 := by
    rw [processChunks_eq parse modelId [] [] 0 chunks1 (by simp),
        processChunks_eq parse modelId [] [] 0 chunks2 (by simp), h]
  cases connect with
  | rejectAt t name msg => rfl
  | resolveAt t status et hb => simp only [inferenceStream, hpc]

def chunksWhole : List (List Char) := [dataLine payloadA ++ dataLine payloadB]

/-- The same bytes split at four awkward boundaries (mid-marker and
mid-payload). -/
def chunksSplit : List (List Char) :=
  ["data: ".toList ++ payloadA.take 5,
   payloadA.drop 5 ++ ['\n'] ++ "da".toList,
   "ta: ".toList ++ payloadB,
   ['\n']]

/-- Witness for C4: the split and unsplit chunkings of the same two-record
body produce identical traces. -/
theorem c4_split_invariance_witness :
    inferenceStream parseFixture mname
        ⟨30000, ConnectOutcome.resolveAt 5 200 [] true, chunksSplit,
         [1, 2, 3, 4], none⟩ =
      inferenceStream parseFixture mname
        ⟨30000, ConnectOutcome.resolveAt 5 200 [] true, chunksWhole, [9],
         none⟩ :=
  c4_split_invariance parseFixture mname 30000
    (ConnectOutcome.resolveAt 5 200 [] true) [1, 2, 3, 4] [9] none
    chunksSplit chunksWhole (by decide)

/-! ## Claim C5 -/

/-- Claim C5: on a normally terminating stream (the last parsed token, and
only it, carries the completion flag) the completion callback fires exactly
once, with `text` the concatenation of all token fragments in emission
order and `tokens_generated` equal to the number of per-token callback
invocations (completion token included); and every per-token callback
observes the accumulator already updated with its token: the k-th `onToken`
snapshot is the concatenation of the first k fragments and the count k. -/
theorem c5_normal_completion (parse : List Char → Option StreamToken)
    (modelId : List Char) (timeoutMs t status : Nat) (et : List Char)
    (chunks : List (List Char)) (times : List Nat)
    (hconn : ¬ timeoutMs < t) (hok : statusOk status = true)
    (hne : parsedTokens parse (joinAll chunks) ≠ [])
    (hmid : ∀ tk ∈ (parsedTokens parse (joinAll chunks)).dropLast,
      tk.complete = false)
    (hlast : ((parsedTokens parse (joinAll chunks)).getLast hne).complete = true) :
    (inferenceStream parse modelId
        ⟨timeoutMs, ConnectOutcome.resolveAt t status et true, chunks, times,
         none⟩).2 = StreamTermination.resolves ∧
    completesOf (inferenceStream parse modelId
        ⟨timeoutMs, ConnectOutcome.resolveAt t status et true, chunks, times,
         none⟩).1 =
      [⟨modelId, fragsJoin (parsedTokens parse (joinAll chunks)),
        (parsedTokens parse (joinAll chunks)).length, "stop".toList⟩] ∧
    (tokensOf (inferenceStream parse modelId
        ⟨timeoutMs, ConnectOutcome.resolveAt t status et true, chunks, times,
         none⟩).1).length = (parsedTokens parse (joinAll chunks)).length ∧
    (inferenceStream parse modelId
        ⟨timeoutMs, ConnectOutcome.resolveAt t status et true, chunks, times,
         none⟩).1.filter isTokenEv =
      tokenEventList [] 0 (parsedTokens parse (joinAll chunks)) := by
  rw [inferenceStream_done parse modelId timeoutMs t status et chunks times
    hconn hok]
  refine ⟨rfl, ?_, ?_, ?_⟩
  · rw [processToks_completes]
    have hdecomp := (List.dropLast_append_getLast hne).symm
    rw [hdecomp, completesList_append,
      completesList_none modelId [] 0 _ hmid]
    simp [completesList, hlast, fragsJoin_append, fragsJoin, joinAll,
      joinAll_append]
  · rw [processToks_tokens]
  · exact processToks_tokenEvents modelId [] 0 _

/-- Witness for C5 at a concrete normally-terminating two-token stream. -/
theorem c5_normal_completion_witness :
    (inferenceStream parseFixture mname
        ⟨30000, ConnectOutcome.resolveAt 5 200 [] true, chunksWhole, [9],
         none⟩).2 = StreamTermination.resolves ∧
    completesOf (inferenceStream parseFixture mname
        ⟨30000, ConnectOutcome.resolveAt 5 200 [] true, chunksWhole, [9],
         none⟩).1 =
      [⟨mname, fragsJoin (parsedTokens parseFixture (joinAll chunksWhole)),
        (parsedTokens parseFixture (joinAll chunksWhole)).length,
        "stop".toList⟩] ∧
    (tokensOf (inferenceStream parseFixture mname
        ⟨30000, ConnectOutcome.resolveAt 5 200 [] true, chunksWhole, [9],
         none⟩).1).length =
      (parsedTokens parseFixture (joinAll chunksWhole)).length ∧
    (inferenceStream parseFixture mname
        ⟨30000, ConnectOutcome.resolveAt 5 200 [] true, chunksWhole, [9],
         none⟩).1.filter isTokenEv =
      tokenEventList [] 0 (parsedTokens parseFixture (joinAll chunksWhole)) :=
  c5_normal_completion parseFixture mname 30000 5 200 [] chunksWhole [9]
    (by decide) (by decide) (by decide) (by decide) (by decide)

/-! ## Claim C7 -/

/-- Claim C7: a record whose payload fails to deserialize is non-fatal.
Deleting such a record from the line sequence changes nothing: the
accumulator state and the entire event sequence are identical, so the
malformed record mutates no state, triggers no callback, and every
subsequent well-formed record is still decoded and delivered.  Moreover the
decoding loop never invokes the error callback at all: on a stream whose
transport does not fail, `errorsOf` the trace is empty whatever the
payloads contain. -/
theorem c7_malformed_record_nonfatal :
    (∀ (parse : List Char → Option StreamToken) (modelId : List Char)
       (tc : List Char × Nat) (ls1 ls2 : List (List Char))
       (badline d : List Char),
       payloadOf badline = some d → parse d = none →
       processLines parse modelId tc (ls1 ++ badline :: ls2) =
         processLines parse modelId tc (ls1 ++ ls2)) ∧
    (∀ (parse : List Char → Option StreamToken) (modelId : List Char)
       (timeoutMs t status : Nat) (et : List Char)
       (chunks : List (List Char)) (times : List Nat),
       ¬ timeoutMs < t → statusOk status = true →
       errorsOf (inferenceStream parse modelId
           ⟨timeoutMs, ConnectOutcome.resolveAt t status et true, chunks,
            times, none⟩).1 = []) := by
  constructor
  · intro parse modelId tc ls1 ls2 badline d hbad hparse
    have hline : ∀ s, processLine parse modelId s badline = (s, []) := by
      intro s
      rw [processLine_eq, hbad]
      simp [hparse]
    rw [processLines_append, processLines_append]
    simp [processLines, hline]
  · intro parse modelId timeoutMs t status et chunks times hconn hok
    rw [inferenceStream_done parse modelId timeoutMs t status et chunks times
      hconn hok]
    exact processToks_errors modelId ([], 0) _

/-- Witness for C7: a `data: oops` record whose payload is not valid JSON
is skipped and the following well-formed record is still processed. -/
theorem c7_malformed_record_nonfatal_witness :
    processLines parseFixture mname ([], 0)
        ([] ++ ("data: oops".toList) :: ["data: ".toList ++ payloadA]) =
      processLines parseFixture mname ([], 0)
        ([] ++ ["data: ".toList ++ payloadA]) :=
  c7_malformed_record_nonfatal.1 parseFixture mname ([], 0) []
    ["data: ".toList ++ payloadA] ("data: oops".toList) ("oops".toList)
    (by decide) (by decide)

/-! ## Claim C9 -/

theorem createError_name_ne_abort (status : Nat) (msg : List Char) :
    (createError status msg).name ≠ abortErrorName := by
  unfold createError
  split_ifs
  · exact (by decide : "ModelNotFoundError".toList ≠ abortErrorName)
  · exact (by decide : "ModelNotLoadedError".toList ≠ abortErrorName)
  · exact (by decide : "OpenLLMError".toList ≠ abortErrorName)

/-- Fatal failures on which `onError` fires twice: the non-2xx and
missing-body branches call `onError` and `throw`, and the function's own
catch handler catches that throw and calls `onError` again before
rethrowing. -/
def doubleReported (inp : StreamInput) : Bool :=
  match inp.connect with
  | ConnectOutcome.rejectAt _ _ _ => false
  | ConnectOutcome.resolveAt t status _ hasBody =>
    if inp.timeoutMs < t then false else !statusOk status || !hasBody

def inpC9 : StreamInput :=
  ⟨10, ConnectOutcome.resolveAt 5 500 ("boom".toList) true, [], [], none⟩

def errC9 : JsError := createError 500 ("boom".toList)

/-- Claim C9 counterexample: on a non-2xx response the error callback fires
*twice* with the same error (once in the `!response.ok` branch, once in the
catch handler that catches the branch's own `throw`), and the promise then
rejects with it — a caller supplying `onError` observes this fatal failure
three times, not twice as claimed. -/
theorem c9_counterexample :
    errorsOf (inferenceStream parseFixture mname inpC9).1 = [errC9, errC9] ∧
    (inferenceStream parseFixture mname inpC9).2 =
      StreamTermination.rejects errC9 := by
  decide

/-- Claim C9 (amended): whenever the promise rejects with a fatal error
`e`, every `onError` invocation of that call delivered exactly `e` and the
last callback of the trace is that error; `onError` fired twice for non-2xx
and missing-body failures and once for connection, deadline and mid-stream
transport failures. -/
theorem c9_fatal_reported_and_thrown (parse : List Char → Option StreamToken)
    (modelId : List Char) (inp : StreamInput) (e : JsError)
    (h : (inferenceStream parse modelId inp).2 = StreamTermination.rejects e) :
    errorsOf (inferenceStream parse modelId inp).1 =
      (if doubleReported inp then [e, e] else [e]) ∧
    (inferenceStream parse modelId inp).1.getLast? = some (Event.error e) := by
  rcases inp with ⟨tm, connect, chunks, times, rf⟩
  cases connect with
  | rejectAt t name msg =>
    by_cases ht : tm < t
    · have hr : inferenceStream parse modelId
          ⟨tm, ConnectOutcome.rejectAt t name msg, chunks, times, rf⟩ =
          ([Event.error (streamTimeoutError tm)],
           StreamTermination.rejects (streamTimeoutError tm)) := by
        simp [inferenceStream, ht, handleCatch]
      rw [hr] at h ⊢
      injection h with h1
      subst h1
      simp [errorsOf, doubleReported]
    · by_cases hn : name = abortErrorName
      · have hr : inferenceStream parse modelId
            ⟨tm, ConnectOutcome.rejectAt t name msg, chunks, times, rf⟩ =
            ([Event.error (streamTimeoutError tm)],
             StreamTermination.rejects (streamTimeoutError tm)) := by
          simp [inferenceStream, ht, handleCatch, hn]
        rw [hr] at h ⊢
        injection h with h1
        subst h1
        simp [errorsOf, doubleReported]
      · have hr : inferenceStream parse modelId
            ⟨tm, ConnectOutcome.rejectAt t name msg, chunks, times, rf⟩ =
            ([Event.error ⟨name, msg, none, none⟩],
             StreamTermination.rejects ⟨name, msg, none, none⟩) := by
          simp [inferenceStream, ht, handleCatch, hn]
        rw [hr] at h ⊢
        injection h with h1
        subst h1
        simp [errorsOf, doubleReported]
  | resolveAt t status et hb =>
    by_cases ht : tm < t
    · have hr : inferenceStream parse modelId
          ⟨tm, ConnectOutcome.resolveAt t status et hb, chunks, times, rf⟩ =
          ([Event.error (streamTimeoutError tm)],
           StreamTermination.rejects (streamTimeoutError tm)) := by
        simp [inferenceStream, ht, handleCatch]
      rw [hr] at h ⊢
      injection h with h1
      subst h1
      simp [errorsOf, doubleReported, ht]
    · cases hs : statusOk status with
      | false =>
        have hr : inferenceStream parse modelId
            ⟨tm, ConnectOutcome.resolveAt t status et hb, chunks, times, rf⟩ =
            ([Event.error (createError status et),
              Event.error (createError status et)],
             StreamTermination.rejects (createError status et)) := by
          simp [inferenceStream, ht, hs, handleCatch,
            createError_name_ne_abort status et]
        rw [hr] at h ⊢
        injection h with h1
        subst h1
        simp [errorsOf, doubleReported, ht, hs]
      | true =>
        cases hb with
        | false =>
          have hnb : noBodyError.name ≠ abortErrorName := by decide
          have hr : inferenceStream parse modelId
              ⟨tm, ConnectOutcome.resolveAt t status et false, chunks, times,
               rf⟩ =
              ([Event.error noBodyError, Event.error noBodyError],
               StreamTermination.rejects noBodyError) := by
            simp [inferenceStream, ht, hs, handleCatch, hnb]
          rw [hr] at h ⊢
          injection h with h1
          subst h1
          simp [errorsOf, doubleReported, ht, hs]
        | true =>
          cases rf with
          | none =>
            rw [inferenceStream_done parse modelId tm t status et chunks times
              ht hs] at h
            simp at h
          | some f =>
            by_cases hn : f.name = abortErrorName
            · have hr : inferenceStream parse modelId
                  ⟨tm, ConnectOutcome.resolveAt t status et true, chunks,
                   times, some f⟩ =
                  ((processToks modelId ([], 0)
                      (parsedTokens parse (joinAll chunks))).2 ++
                     [Event.error (streamTimeoutError tm)],
                   StreamTermination.rejects (streamTimeoutError tm)) := by
                simp [inferenceStream, ht, hs, handleCatch, hn,
                  processChunks_trace]
              rw [hr] at h ⊢
              injection h with h1
              subst h1
              refine ⟨?_, ?_⟩
              · rw [errorsOf_concat_error, processToks_errors]
                simp [doubleReported, ht, hs]
              · simp
            · have hr : inferenceStream parse modelId
                  ⟨tm, ConnectOutcome.resolveAt t status et true, chunks,
                   times, some f⟩ =
                  ((processToks modelId ([], 0)
                      (parsedTokens parse (joinAll chunks))).2 ++
                     [Event.error f],
                   StreamTermination.rejects f) := by
                simp [inferenceStream, ht, hs, handleCatch, hn,
                  processChunks_trace]
              rw [hr] at h ⊢
              injection h with h1
              subst h1
              refine ⟨?_, ?_⟩
              · rw [errorsOf_concat_error, processToks_errors]
                simp [doubleReported, ht, hs]
              · simp

def inpC9b : StreamInput :=
  ⟨10, ConnectOutcome.rejectAt 5 ("TypeError".toList) ("net down".toList),
   [], [], none⟩

def errC9b : JsError := ⟨"TypeError".toList, "net down".toList, none, none⟩

/-- Witness for C9 (amended) at a concrete transport failure. -/
theorem c9_fatal_reported_and_thrown_witness :
    errorsOf (inferenceStream parseFixture mname inpC9b).1 =
      (if doubleReported inpC9b then [errC9b, errC9b] else [errC9b]) ∧
    (inferenceStream parseFixture mname inpC9b).1.getLast? =
      some (Event.error errC9b) :=
  c9_fatal_reported_and_thrown parseFixture mname inpC9b errC9b (by decide)

end OpenLLM
